import Mathlib

/-!
Verification of the LibreChat → Qdrant sync script (`sync-qdrant.js`).

The script walks a repository tree, filters files by extension and excluded
directory names, splits each file's content into overlapping chunks, embeds
the chunks in batches, and upserts the resulting points into a Qdrant
collection after a full delete-and-recreate reset.

Text is modelled as `List Char`; the external services (embedding provider,
Qdrant) are modelled as explicit parameters/oracles; the network effects of
the coordinator are modelled as explicit call traces.
-/

namespace SyncQdrant

/-- Error taxonomy from the spec (§7). -/
inductive SyncError where
  | ConfigurationError
  | ConsistencyError
deriving DecidableEq, Repr

/-- Chunker configuration: `chunkSize` and `chunkOverlap`
(`CHUNK_SIZE` / `CHUNK_OVERLAP` in `sync-qdrant.js`). -/
structure ChunkerConfig where
  chunkSize : Nat
  chunkOverlap : Nat
deriving DecidableEq, Repr

/-- A chunker configuration is valid iff `0 ≤ chunkOverlap < chunkSize`. -/
def ChunkerConfig.valid (cfg : ChunkerConfig) : Prop :=
  cfg.chunkOverlap < cfg.chunkSize

instance (cfg : ChunkerConfig) : Decidable cfg.valid := by
  unfold ChunkerConfig.valid; infer_instance

/-- Modelled from the spec: the constructor of `RecursiveCharacterTextSplitter`
(`@langchain/textsplitters`, not part of this repository's sources, used at
`sync-qdrant.js` line 91). Per spec §4.1, construction fails with
`ConfigurationError` when `chunkOverlap ≥ chunkSize`. -/
def mkTextSplitter (cfg : ChunkerConfig) : Except SyncError ChunkerConfig :=
  if cfg.chunkSize ≤ cfg.chunkOverlap then .error .ConfigurationError
  else .ok cfg

/-- The advance between consecutive chunk windows: a new chunk starts
`chunkSize - chunkOverlap` characters after the previous one. -/
def ChunkerConfig.step (cfg : ChunkerConfig) : Nat :=
  cfg.chunkSize - cfg.chunkOverlap

/-- Modelled from the spec: `RecursiveCharacterTextSplitter.splitText`
(`@langchain/textsplitters`, not part of this repository's sources, used at
`sync-qdrant.js` line 192). Per spec §4.1 the splitter produces an ordered
sequence of chunks of length ≤ `chunkSize`, consecutive chunks overlapping by
up to `chunkOverlap` characters, covering the whole input with no gaps, and
producing zero chunks for empty input. The natural-boundary preference
(paragraph / line / word breaks) is abstracted to the raw character-cut
fallback, the lowest-priority strategy the spec names; size, overlap,
coverage and emptiness behaviour are as specified. -/
def splitText (cfg : ChunkerConfig) (s : List Char) : List (List Char) :=
  if s.length ≤ cfg.chunkSize ∨ cfg.step = 0 then
    if s.isEmpty then [] else [s]
  else
    s.take cfg.chunkSize :: splitText cfg (s.drop cfg.step)
termination_by s.length
decreasing_by
  rename_i h
  push_neg at h
  simp only [List.length_drop]
  omega

/-- Concatenation of the chunks' non-overlapping portions: the first chunk in
full, then each later chunk with its `ov`-character overlap with its
predecessor removed. -/
def reconstruct (ov : Nat) : List (List Char) → List Char
  | [] => []
  | c :: cs => c ++ (cs.map (fun d => d.drop ov)).flatten


/-! ### Corpus walker (`getFiles`, `shouldExcludeDir`, `shouldIncludeFile`) -/

/-- `INCLUDE_EXTENSIONS` from `sync-qdrant.js` lines 40–62. -/
def INCLUDE_EXTENSIONS : List String :=
  [".js", ".jsx", ".ts", ".tsx", ".json", ".yml", ".yaml", ".md", ".css",
   ".scss", ".html", ".py", ".go", ".java", ".c", ".cpp", ".h", ".hpp",
   ".rs", ".php", ".rb"]

/-- `EXCLUDE_DIRS` from `sync-qdrant.js` lines 65–76. -/
def EXCLUDE_DIRS : List String :=
  ["node_modules", ".git", "dist", "build", "coverage", ".next", ".cache",
   ".husky", ".vscode", ".github"]

/-- Node's `path.extname` on a base name: the suffix starting at the last
`'.'`; empty when there is no `'.'` or the only `'.'` is the leading
character (dotfile). -/
def extname (s : List Char) : List Char :=
  let tailLen := (s.reverse.takeWhile (fun c => c ≠ '.')).length
  if s.length ≤ tailLen + 1 then [] else s.drop (s.length - 1 - tailLen)

/-- `shouldExcludeDir` (`sync-qdrant.js` lines 120–123): a directory is
excluded iff its base name is in `EXCLUDE_DIRS`. -/
def shouldExcludeDir (name : String) : Bool :=
  EXCLUDE_DIRS.contains name

/-- `shouldIncludeFile` (`sync-qdrant.js` lines 130–133): a file is included
iff its lower-cased extension is in `INCLUDE_EXTENSIONS`. -/
def shouldIncludeFile (name : String) : Bool :=
  INCLUDE_EXTENSIONS.contains (String.mk ((extname name.toList).map Char.toLower))

/-- A file tree: files carry their text content, directories their entries.
Each node carries its base name. -/
inductive FsTree where
  | file (name : String) (content : List Char)
  | dir (name : String) (children : List FsTree)

mutual

/-- One iteration of the loop body of `getFiles` (`sync-qdrant.js` lines
144–156) on a single directory entry: a directory is descended into unless
excluded, a file is kept if its extension is included. Produces the files'
paths (as component lists, relative to the walked root) with their
contents. -/
def entryFiles : FsTree → List (List String × List Char)
  | .file name content =>
    if shouldIncludeFile name then [([name], content)] else []
  | .dir name children =>
    if shouldExcludeDir name then []
    else (entryFilesList children).map (fun p => (name :: p.1, p.2))

/-- The loop of `getFiles` over a directory's entries, concatenating the
results in order. -/
def entryFilesList : List FsTree → List (List String × List Char)
  | [] => []
  | t :: ts => entryFiles t ++ entryFilesList ts

end

/-- `getFiles` (`sync-qdrant.js` lines 140–159) applied to the repository
root: the root's own name is not checked against the exclusion set. -/
def getFiles : FsTree → List (List String × List Char)
  | .file _ _ => []
  | .dir _ children => entryFilesList children

/-- The filtering invariant of a walker result entry: no directory component
of the path is in the exclusion set, and the final (file-name) component has
an included extension. -/
def goodPath (p : List String × List Char) : Prop :=
  (∀ d ∈ p.1.dropLast, shouldExcludeDir d = false) ∧
  ∃ f, p.1.getLast? = some f ∧ shouldIncludeFile f = true


/-! ### File processing (`processFile`) -/

/-- A document as returned by `readFileContent` (`sync-qdrant.js` lines
166–179): relative path plus content. -/
structure Document where
  path : String
  content : List Char
deriving DecidableEq, Repr

/-- Chunk metadata as built by `processFile`. -/
structure DocMeta where
  path : String
  chunk : Nat
  totalChunks : Nat
deriving DecidableEq, Repr

/-- One document chunk (`pageContent` plus metadata) as built by
`processFile` (`sync-qdrant.js` lines 195–202). -/
structure DocChunk where
  pageContent : List Char
  metadata : DocMeta
deriving DecidableEq, Repr

/-- `processFile` (`sync-qdrant.js` lines 186–205): a `null` file datum
yields no chunks; otherwise the splitter's texts are mapped to chunks whose
metadata records the path, the chunk's position, and the total number of
chunks of the file. -/
def processFile (cfg : ChunkerConfig) (fd : Option Document) : List DocChunk :=
  match fd with
  | none => []
  | some fd =>
    let texts := splitText cfg fd.content
    texts.enum.map (fun ti => ⟨ti.2, ⟨fd.path, ti.1, texts.length⟩⟩)


/-! ### Upload (`uploadToQdrant`), collection reset (`resetCollection`) and
the sync coordinator (`syncRepository`) -/

/-- An embedding vector; only its length and identity matter to the claims,
so entries are modelled as integers. -/
abbrev EmbeddingVector := List Int

/-- Default `QDRANT_COLLECTION` (`sync-qdrant.js` line 33). -/
def COLLECTION_NAME : String := "librechat-code"

/-- The collection's declared vector dimension (`sync-qdrant.js` line 238). -/
def VECTOR_DIM : Nat := 1536

/-- The payload stored with a point (`sync-qdrant.js` lines 279–282). -/
structure PointPayload where
  text : List Char
  metadata : DocMeta
deriving DecidableEq, Repr

/-- A Qdrant point (`sync-qdrant.js` lines 276–283). -/
structure Point where
  id : Nat
  vector : EmbeddingVector
  payload : PointPayload
deriving DecidableEq, Repr

/-- The remote calls the script can issue. -/
inductive RemoteCall where
  | getCollections
  | deleteCollection (collection : String)
  | createCollection (collection : String) (dim : Nat)
  | embedDocuments (texts : List (List Char))
  | upsert (collection : String) (points : List Point)
deriving DecidableEq, Repr

/-- `BATCH_SIZE` (`sync-qdrant.js` line 265). -/
def BATCH_SIZE : Nat := 100

/-- The point built for one document at global position `di.1`
(`sync-qdrant.js` lines 276–283): `id` is `count + idx`, the vector is the
embedding of the chunk text, the payload carries the text and metadata. -/
def pointOf (embedDoc : List Char → EmbeddingVector) (di : Nat × DocChunk) : Point :=
  ⟨di.1, embedDoc di.2.pageContent, ⟨di.2.pageContent, di.2.metadata⟩⟩

/-- The points of one batch: document at in-batch offset `idx` gets id
`count + idx` (`List.enumFrom count` pairs each batch element with
`count + idx`, mirroring `id: count + idx` at `sync-qdrant.js` line 277).
`embedDoc` models the embedding provider as an order-preserving per-text
function (`embedDocuments` maps `texts[i]` to `vector[i]`, spec §4.3). -/
def mkPoints (embedDoc : List Char → EmbeddingVector) (count : Nat)
    (batch : List DocChunk) : List Point :=
  (List.enumFrom count batch).map (pointOf embedDoc)

/-- The batch loop of `uploadToQdrant` (`sync-qdrant.js` lines 268–292).
`failsUpsert b` models whether the remote upsert for the `b`-th batch
throws. Returns, for each batch whose iteration was reached, the batch
index, the texts sent to the embedding provider, and the points passed to
the `upsert` call — plus whether the loop was aborted by a thrown upsert
(which the surrounding `catch` logs without rethrowing, lines 295–297). A
thrown upsert contributes its attempted call but no persisted points. -/
def uploadLoop (embedDoc : List Char → EmbeddingVector) (failsUpsert : Nat → Bool)
    (batchIdx count : Nat) (docs : List DocChunk) :
    List (Nat × List (List Char) × List Point) × Bool :=
  match docs with
  | [] => ([], false)
  | d :: ds =>
    let batch := (d :: ds).take BATCH_SIZE
    let texts := batch.map (fun doc => doc.pageContent)
    let pts := mkPoints embedDoc count batch
    if failsUpsert batchIdx then ([(batchIdx, texts, pts)], true)
    else
      let rest := uploadLoop embedDoc failsUpsert (batchIdx + 1) (count + batch.length)
        ((d :: ds).drop BATCH_SIZE)
      ((batchIdx, texts, pts) :: rest.1, rest.2)
termination_by docs.length
decreasing_by
  simp only [List.length_drop, List.length_cons, BATCH_SIZE]
  omega

/-- The observable outcome of `uploadToQdrant`: the executed batches and
whether an upsert throw was caught (and merely logged). -/
structure UploadRun where
  batches : List (Nat × List (List Char) × List Point)
  aborted : Bool
deriving DecidableEq, Repr

/-- `uploadToQdrant` (`sync-qdrant.js` lines 253–298): in dry-run mode it
only logs and issues no calls; otherwise it runs the batch loop from
`count = 0`. Its `catch` swallows any error, so the function always returns
normally. -/
def uploadToQdrant (dryRun : Bool) (embedDoc : List Char → EmbeddingVector)
    (failsUpsert : Nat → Bool) (docs : List DocChunk) : UploadRun :=
  if dryRun then ⟨[], false⟩
  else
    let r := uploadLoop embedDoc failsUpsert 0 0 docs
    ⟨r.1, r.2⟩

/-- The remote calls issued by an upload run: per executed batch, one
embedding request followed by one upsert. -/
def UploadRun.remoteCalls (r : UploadRun) : List RemoteCall :=
  (r.batches.map (fun b =>
    [RemoteCall.embedDocuments b.2.1, RemoteCall.upsert COLLECTION_NAME b.2.2])).flatten

/-- How many times the upsert for batch `b` was attempted during the run. -/
def UploadRun.upsertAttempts (r : UploadRun) (b : Nat) : Nat :=
  (r.batches.filter (fun x => x.1 == b)).length

/-- The points actually persisted in the collection: all executed batches,
minus the final one when its upsert threw. -/
def UploadRun.persisted (r : UploadRun) : List Point :=
  ((if r.aborted then r.batches.dropLast else r.batches).map (fun b => b.2.2)).flatten

/-- All points passed to some upsert call during the run. -/
def UploadRun.upsertedPoints (r : UploadRun) : List Point :=
  (r.batches.map (fun b => b.2.2)).flatten

/-- The remote calls of `resetCollection` (`sync-qdrant.js` lines 210–247):
in dry-run mode it returns before any call, including the read-only
existence check (lines 214–219); otherwise it lists collections, deletes
the collection when present, and creates it with 1536 dimensions. -/
def resetCollectionCalls (dryRun collectionExists : Bool) : List RemoteCall :=
  if dryRun then []
  else [RemoteCall.getCollections] ++
    (if collectionExists then [RemoteCall.deleteCollection COLLECTION_NAME] else []) ++
    [RemoteCall.createCollection COLLECTION_NAME VECTOR_DIM]

/-- Relative path string of a walker path (`path.relative` in
`readFileContent`, joined with `/`). -/
def pathToString (p : List String) : String := String.intercalate "/" p

/-- The documents read from the tree (`readFileContent` over `getFiles`). -/
def documentsOf (tree : FsTree) : List Document :=
  (getFiles tree).map (fun p => ⟨pathToString p.1, p.2⟩)

/-- `allDocuments` of `syncRepository` (`sync-qdrant.js` lines 324–329): the
concatenation of every file's chunks in traversal order. -/
def allDocumentsOf (cfg : ChunkerConfig) (tree : FsTree) : List DocChunk :=
  (documentsOf tree).flatMap (fun d => processFile cfg (some d))

/-- The observable outcome of one `syncRepository` run: remote calls issued,
final collection contents, and the process exit code. -/
structure SyncRun where
  calls : List RemoteCall
  collection : List Point
  exitCode : Nat
deriving DecidableEq, Repr

/-- `syncRepository` (`sync-qdrant.js` lines 303–345): missing API keys make
`checkRequiredAPIKeys` exit with code 1 before any remote call; otherwise
the collection is reset (delete + recreate, emptying it unless in dry-run),
all files are chunked, and the chunks are uploaded. Upsert failures are
swallowed inside `uploadToQdrant`, so the run then falls through to the
success path and the process exits 0. -/
def syncRepository (keysPresent dryRun collectionExists : Bool)
    (cfg : ChunkerConfig) (embedDoc : List Char → EmbeddingVector)
    (failsUpsert : Nat → Bool) (tree : FsTree) (oldCollection : List Point) : SyncRun :=
  if keysPresent = false then ⟨[], oldCollection, 1⟩
  else
    let docs := allDocumentsOf cfg tree
    let up := uploadToQdrant dryRun embedDoc failsUpsert docs
    ⟨resetCollectionCalls dryRun collectionExists ++ up.remoteCalls,
     (if dryRun then oldCollection else []) ++ up.persisted,
     0⟩


/-! ### The chunker contract (C1, C2, C7) -/

/-- On empty input the splitter produces zero chunks. -/
theorem splitText_nil (cfg : ChunkerConfig) : splitText cfg [] = [] := by
  rw [splitText]
  simp

/-- For a valid configuration, no produced chunk is longer than `chunkSize`. -/
theorem splitText_length_le (cfg : ChunkerConfig) (hv : cfg.valid) (s : List Char) :
    ∀ c ∈ splitText cfg s, c.length ≤ cfg.chunkSize := by
  induction s using splitText.induct cfg with
  | case1 s h he =>
    rw [splitText, if_pos h, if_pos he]
    intro c hc
    simp at hc
  | case2 s h he =>
    rw [splitText, if_pos h, if_neg he]
    intro c hc
    simp only [List.mem_singleton] at hc
    subst hc
    rcases h with h | h
    · exact h
    · have hstep : 0 < cfg.step := Nat.sub_pos_of_lt hv
      exact absurd h (by omega)
  | case3 s h ih =>
    rw [splitText, if_neg h]
    intro c hc
    rcases List.mem_cons.mp hc with rfl | hc
    · simp
    · exact ih c hc

/-- On nonempty input the chunk list is nonempty, and its head is at least
`min chunkSize s.length` characters long. -/
theorem splitText_head_length (cfg : ChunkerConfig) (hv : cfg.valid)
    (t : List Char) (ht : t ≠ []) :
    ∃ c cs, splitText cfg t = c :: cs ∧ min cfg.chunkSize t.length ≤ c.length := by
  have hstep : 0 < cfg.step := Nat.sub_pos_of_lt hv
  rw [splitText]
  by_cases h : t.length ≤ cfg.chunkSize ∨ cfg.step = 0
  · rw [if_pos h, if_neg (by simpa [List.isEmpty_iff] using ht)]
    exact ⟨t, [], rfl, by omega⟩
  · rw [if_neg h]
    push_neg at h
    exact ⟨t.take cfg.chunkSize, _, rfl, by simp⟩

/-- Coverage/reconstruction: for a valid configuration, the first chunk
followed by each later chunk minus its `chunkOverlap`-character overlap
concatenates back to the original input. -/
theorem splitText_reconstruct (cfg : ChunkerConfig) (hv : cfg.valid) (s : List Char) :
    reconstruct cfg.chunkOverlap (splitText cfg s) = s := by
  have hstep : 0 < cfg.step := Nat.sub_pos_of_lt hv
  have hsz : cfg.chunkOverlap < cfg.chunkSize := hv
  induction s using splitText.induct cfg with
  | case1 s h he =>
    rw [splitText, if_pos h, if_pos he, reconstruct]
    exact (List.isEmpty_iff.mp he).symm
  | case2 s h he =>
    rw [splitText, if_pos h, if_neg he, reconstruct]
    simp
  | case3 s h ih =>
    rw [splitText, if_neg h]
    push_neg at h
    obtain ⟨hlen, -⟩ := h
    set t := s.drop cfg.step with htdef
    have htlen : t.length = s.length - cfg.step := by simp [htdef]
    have hstep_le : cfg.step ≤ cfg.chunkSize := Nat.sub_le _ _
    have hov_lt : cfg.chunkOverlap < t.length := by
      simp only [ChunkerConfig.step] at htlen
      omega
    have ht : t ≠ [] := by
      intro hnil
      rw [hnil] at htlen
      simp at htlen
      omega
    obtain ⟨c, cs, hsplit, hclen⟩ := splitText_head_length cfg hv t ht
    have hov_le_c : cfg.chunkOverlap ≤ c.length := le_trans (by omega) hclen
    rw [reconstruct, hsplit]
    rw [hsplit, reconstruct] at ih
    have hdrop := congrArg (List.drop cfg.chunkOverlap) ih
    rw [List.drop_append_of_le_length hov_le_c] at hdrop
    simp only [List.map_cons, List.flatten_cons]
    rw [hdrop]
    rw [htdef, List.drop_drop]
    have hsum : cfg.step + cfg.chunkOverlap = cfg.chunkSize := by
      simp only [ChunkerConfig.step]
      omega
    rw [hsum, List.take_append_drop]

/-- Every character of the input occurs in at least one chunk. -/
theorem splitText_covers (cfg : ChunkerConfig) (hv : cfg.valid) (s : List Char)
    (a : Char) (ha : a ∈ s) : ∃ c ∈ splitText cfg s, a ∈ c := by
  rw [← splitText_reconstruct cfg hv s] at ha
  cases hsp : splitText cfg s with
  | nil =>
    rw [hsp, reconstruct] at ha
    simp at ha
  | cons c cs =>
    rw [hsp, reconstruct] at ha
    rcases List.mem_append.mp ha with h | h
    · exact ⟨c, by simp, h⟩
    · obtain ⟨l, hl, hal⟩ := List.mem_flatten.mp h
      obtain ⟨d, hd, rfl⟩ := List.mem_map.mp hl
      exact ⟨d, by simp [hd], List.mem_of_mem_drop hal⟩

/-- C1: for every input string and every valid chunker configuration
(`chunkOverlap < chunkSize`), the chunk sequence covers the entire input —
every character of the source appears in at least one chunk — and
concatenating the chunks' non-overlapping portions exactly reconstructs the
original content. -/
theorem chunker_coverage (cfg : ChunkerConfig) (hv : cfg.valid) (s : List Char) :
    reconstruct cfg.chunkOverlap (splitText cfg s) = s ∧
    ∀ a ∈ s, ∃ c ∈ splitText cfg s, a ∈ c :=
  ⟨splitText_reconstruct cfg hv s, fun a ha => splitText_covers cfg hv s a ha⟩

/-- Witness for C1 at the spec's own example: chunkSize 4, chunkOverlap 2,
input `"A. B. C."`. -/
theorem chunker_coverage_witness :
    (ChunkerConfig.mk 4 2).valid ∧
    (reconstruct 2 (splitText (ChunkerConfig.mk 4 2) "A. B. C.".toList) = "A. B. C.".toList ∧
     ∀ a ∈ "A. B. C.".toList, ∃ c ∈ splitText (ChunkerConfig.mk 4 2) "A. B. C.".toList, a ∈ c) :=
  ⟨by decide, chunker_coverage (ChunkerConfig.mk 4 2) (by decide) "A. B. C.".toList⟩

/-- C2: for a valid configuration every chunk has length at most `chunkSize`,
and the empty input yields zero chunks (never a single empty chunk). -/
theorem chunker_bounded (cfg : ChunkerConfig) (hv : cfg.valid) (s : List Char) :
    (∀ c ∈ splitText cfg s, c.length ≤ cfg.chunkSize) ∧ splitText cfg [] = [] :=
  ⟨splitText_length_le cfg hv s, splitText_nil cfg⟩

/-- Witness for C2 at chunkSize 4, chunkOverlap 2, input `"A. B. C."`. -/
theorem chunker_bounded_witness :
    (ChunkerConfig.mk 4 2).valid ∧
    ((∀ c ∈ splitText (ChunkerConfig.mk 4 2) "A. B. C.".toList, c.length ≤ 4) ∧
     splitText (ChunkerConfig.mk 4 2) [] = []) :=
  ⟨by decide, chunker_bounded (ChunkerConfig.mk 4 2) (by decide) "A. B. C.".toList⟩

/-- C7: for every configuration with `chunkOverlap ≥ chunkSize`, constructing
the chunker fails with a `ConfigurationError` and no chunk sequence is
produced. -/
theorem chunker_invalid_config (cfg : ChunkerConfig) (h : cfg.chunkSize ≤ cfg.chunkOverlap) :
    mkTextSplitter cfg = .error .ConfigurationError := by
  rw [mkTextSplitter, if_pos h]

/-- Witness for C7 at chunkSize 4, chunkOverlap 4. -/
theorem chunker_invalid_config_witness :
    (ChunkerConfig.mk 4 4).chunkSize ≤ (ChunkerConfig.mk 4 4).chunkOverlap ∧
    mkTextSplitter (ChunkerConfig.mk 4 4) = .error .ConfigurationError :=
  ⟨by decide, chunker_invalid_config (ChunkerConfig.mk 4 4) (by decide)⟩


/-! ### Walker filtering (C8) and per-file chunk metadata (C10) -/

/-- Every entry produced by the walker's loop body satisfies the filtering
invariant, at every depth. -/
theorem entryFiles_good :
    (∀ t, ∀ p ∈ entryFiles t, goodPath p) ∧
    (∀ ts, ∀ p ∈ entryFilesList ts, goodPath p) := by
  refine entryFiles.mutual_induct
    (fun t => ∀ p ∈ entryFiles t, goodPath p)
    (fun ts => ∀ p ∈ entryFilesList ts, goodPath p) ?_ ?_ ?_ ?_ ?_ ?_
  · intro name content hinc p hp
    rw [entryFiles, if_pos hinc] at hp
    simp only [List.mem_singleton] at hp
    subst hp
    exact ⟨by intro d hd; simp [List.dropLast] at hd, name, rfl, hinc⟩
  · intro name content hinc p hp
    rw [entryFiles, if_neg hinc] at hp
    simp at hp
  · intro name children hexc p hp
    rw [entryFiles, if_pos hexc] at hp
    simp at hp
  · intro name children hexc ih p hp
    rw [entryFiles, if_neg hexc] at hp
    obtain ⟨q, hq, rfl⟩ := List.mem_map.mp hp
    obtain ⟨hdirs, f, hlast, hinc⟩ := ih q hq
    obtain ⟨x, xs, hq1⟩ : ∃ x xs, q.1 = x :: xs := by
      cases hq1 : q.1 with
      | nil => rw [hq1] at hlast; simp at hlast
      | cons x xs => exact ⟨x, xs, rfl⟩
    constructor
    · intro d hd
      rw [hq1] at hd hdirs
      simp only [List.dropLast_cons₂, List.mem_cons] at hd
      rcases hd with rfl | hd
      · simpa using hexc
      · exact hdirs d hd
    · refine ⟨f, ?_, hinc⟩
      rw [hq1] at hlast ⊢
      simpa [List.getLast?_cons_cons] using hlast
  · intro p hp
    rw [entryFilesList] at hp
    simp at hp
  · intro t ts ih1 ih2 p hp
    rw [entryFilesList] at hp
    rcases List.mem_append.mp hp with h | h
    · exact ih1 p h
    · exact ih2 p h

/-- C8: for every file tree, the walker's output contains no file lying
under any directory (at any depth) whose base name is in the exclusion set,
and contains no file whose (case-insensitively compared) extension is
outside the inclusion set. -/
theorem walker_filters (root : FsTree) :
    ∀ p ∈ getFiles root,
      (∀ d ∈ p.1.dropLast, shouldExcludeDir d = false) ∧
      ∃ f, p.1.getLast? = some f ∧ shouldIncludeFile f = true := by
  cases root with
  | file name content =>
    intro p hp
    rw [getFiles] at hp
    simp at hp
  | dir name children =>
    intro p hp
    rw [getFiles] at hp
    exact entryFiles_good.2 children p hp

/-- Witness for C8 at a concrete tree: a root holding one source file and one
excluded directory containing another. -/
theorem walker_filters_witness :
    (["src", "a.js"], "x".toList) ∈
      getFiles (FsTree.dir "repo"
        [FsTree.dir "src" [FsTree.file "a.js" "x".toList],
         FsTree.dir "node_modules" [FsTree.file "b.js" "y".toList]]) ∧
    ((∀ d ∈ (["src", "a.js"] : List String).dropLast, shouldExcludeDir d = false) ∧
     ∃ f, (["src", "a.js"] : List String).getLast? = some f ∧ shouldIncludeFile f = true) :=
  ⟨by decide,
   walker_filters
     (FsTree.dir "repo"
       [FsTree.dir "src" [FsTree.file "a.js" "x".toList],
        FsTree.dir "node_modules" [FsTree.file "b.js" "y".toList]])
     (["src", "a.js"], "x".toList) (by decide)⟩


/-- C10: the chunks produced from a file carry chunk indices that are
exactly the consecutive integers `0 .. totalChunks - 1` in order, and every
chunk carries the same `totalChunks`, equal to the actual number of chunks
produced from that file. -/
theorem processFile_chunk_meta (cfg : ChunkerConfig) (fd : Option Document) :
    (processFile cfg fd).map (fun d => d.metadata.chunk) =
      List.range (processFile cfg fd).length ∧
    ∀ d ∈ processFile cfg fd, d.metadata.totalChunks = (processFile cfg fd).length := by
  cases fd with
  | none => simp [processFile]
  | some fd =>
    constructor
    · simp only [processFile, List.map_map]
      have h1 : ((fun d => d.metadata.chunk) ∘
          (fun ti : Nat × List Char =>
            DocChunk.mk ti.2 ⟨fd.path, ti.1, (splitText cfg fd.content).length⟩)) =
          Prod.fst := by
        funext ti
        rfl
      rw [h1, List.enum_map_fst]
      simp
    · intro d hd
      simp only [processFile, List.mem_map] at hd
      obtain ⟨ti, hti, rfl⟩ := hd
      simp [processFile]


/-! ### Lemmas about the batch loop -/

/-- Every batch index recorded by the loop is at least the starting index. -/
theorem uploadLoop_idx_ge (e : List Char → EmbeddingVector) (f : Nat → Bool) :
    ∀ (bi count : Nat) (docs : List DocChunk),
      ∀ x ∈ (uploadLoop e f bi count docs).1, bi ≤ x.1 := by
  refine uploadLoop.induct e f
    (fun bi count docs => ∀ x ∈ (uploadLoop e f bi count docs).1, bi ≤ x.1) ?_ ?_ ?_
  · intro bi count x hx
    rw [uploadLoop] at hx
    simp at hx
  · intro bi count d ds hf x hx
    rw [uploadLoop, if_pos hf] at hx
    simp only [List.mem_singleton] at hx
    subst hx
    exact le_refl bi
  · intro bi count d ds batch hf ih x hx
    rw [uploadLoop, if_neg hf] at hx
    rcases List.mem_cons.mp hx with rfl | hx
    · exact le_refl bi
    · exact le_trans (Nat.le_succ bi) (ih x hx)

/-- The upsert for any given batch is attempted at most once: the loop makes
a single pass with no retry. -/
theorem uploadLoop_attempts_le (e : List Char → EmbeddingVector) (f : Nat → Bool) :
    ∀ (bi count : Nat) (docs : List DocChunk) (b : Nat),
      ((uploadLoop e f bi count docs).1.filter (fun x => x.1 == b)).length ≤ 1 := by
  refine uploadLoop.induct e f
    (fun bi count docs =>
      ∀ b, ((uploadLoop e f bi count docs).1.filter (fun x => x.1 == b)).length ≤ 1) ?_ ?_ ?_
  · intro bi count b
    rw [uploadLoop]
    simp
  · intro bi count d ds hf b
    rw [uploadLoop, if_pos hf]
    exact le_trans (List.length_filter_le _ _) (by simp)
  · intro bi count d ds batch hf ih b
    rw [uploadLoop, if_neg hf]
    by_cases hb : b = bi
    · subst hb
      have hrest : ((uploadLoop e f (b + 1) (count + batch.length)
          (List.drop BATCH_SIZE (d :: ds))).1.filter (fun x => x.1 == b)) = [] := by
        rw [List.filter_eq_nil_iff]
        intro x hx
        have := uploadLoop_idx_ge e f (b + 1) (count + batch.length)
          (List.drop BATCH_SIZE (d :: ds)) x hx
        simp only [beq_iff_eq]
        omega
      simp only [List.filter_cons, beq_self_eq_true, if_pos, List.length_cons]
      rw [hrest]
      simp
    · have hhead : (((bi : Nat), (d :: ds).take BATCH_SIZE |>.map (fun doc => doc.pageContent),
          mkPoints e count ((d :: ds).take BATCH_SIZE)).1 == b) = false := by
        simp only [beq_eq_false_iff_ne, ne_eq]
        omega
      simp only [List.filter_cons, hhead, Bool.false_eq_true, if_neg, if_false]
      exact ih b

/-- An aborted loop has recorded at least one executed batch. -/
theorem uploadLoop_ne_nil_of_aborted (e : List Char → EmbeddingVector) (f : Nat → Bool) :
    ∀ (bi count : Nat) (docs : List DocChunk),
      (uploadLoop e f bi count docs).2 = true → (uploadLoop e f bi count docs).1 ≠ [] := by
  refine uploadLoop.induct e f
    (fun bi count docs =>
      (uploadLoop e f bi count docs).2 = true → (uploadLoop e f bi count docs).1 ≠ []) ?_ ?_ ?_
  · intro bi count h
    rw [uploadLoop] at h
    simp at h
  · intro bi count d ds hf _
    rw [uploadLoop, if_pos hf]
    simp
  · intro bi count d ds batch hf ih h
    rw [uploadLoop, if_neg hf]
    simp

/-- With an upsert oracle that never fails, the loop never aborts. -/
theorem uploadLoop_noFail_not_aborted (e : List Char → EmbeddingVector) :
    ∀ (bi count : Nat) (docs : List DocChunk),
      (uploadLoop e (fun _ => false) bi count docs).2 = false := by
  refine uploadLoop.induct e (fun _ => false)
    (fun bi count docs => (uploadLoop e (fun _ => false) bi count docs).2 = false) ?_ ?_ ?_
  · intro bi count
    rw [uploadLoop]
  · intro bi count d ds hf
    simp at hf
  · intro bi count d ds batch hf ih
    rw [uploadLoop, if_neg hf]
    exact ih

/-- The points persisted by a possibly-failing run form a prefix of the
points persisted by the corresponding never-failing run: failed and skipped
batches are missing, but nothing already upserted is rolled back. -/
theorem uploadLoop_persisted_prefix (e : List Char → EmbeddingVector) (f : Nat → Bool) :
    ∀ (bi count : Nat) (docs : List DocChunk),
      (UploadRun.mk (uploadLoop e f bi count docs).1 (uploadLoop e f bi count docs).2).persisted <+:
      (UploadRun.mk (uploadLoop e (fun _ => false) bi count docs).1
        (uploadLoop e (fun _ => false) bi count docs).2).persisted := by
  refine uploadLoop.induct e f
    (fun bi count docs =>
      (UploadRun.mk (uploadLoop e f bi count docs).1 (uploadLoop e f bi count docs).2).persisted <+:
      (UploadRun.mk (uploadLoop e (fun _ => false) bi count docs).1
        (uploadLoop e (fun _ => false) bi count docs).2).persisted) ?_ ?_ ?_
  · intro bi count
    rw [uploadLoop]
    exact List.nil_prefix
  · intro bi count d ds hf
    rw [uploadLoop, if_pos hf]
    simp only [UploadRun.persisted, List.dropLast_single, if_pos, List.map_nil,
      List.flatten_nil]
    exact List.nil_prefix
  · intro bi count d ds batch hf ih
    rw [uploadLoop, if_neg hf]
    conv_rhs => rw [uploadLoop]
    rw [if_neg (by simp)]
    set restL := uploadLoop e f (bi + 1) (count + batch.length) (List.drop BATCH_SIZE (d :: ds))
      with hrestL
    set restR := uploadLoop e (fun _ => false) (bi + 1) (count + batch.length)
      (List.drop BATCH_SIZE (d :: ds)) with hrestR
    have hR2 : restR.2 = false := uploadLoop_noFail_not_aborted e (bi + 1) _ _
    have hL : (UploadRun.mk ((bi, batch.map (fun doc => doc.pageContent),
        mkPoints e count batch) :: restL.1) restL.2).persisted =
        mkPoints e count batch ++ (UploadRun.mk restL.1 restL.2).persisted := by
      by_cases h2 : restL.2
      · have hne : restL.1 ≠ [] := uploadLoop_ne_nil_of_aborted e f (bi + 1) _ _ h2
        simp only [UploadRun.persisted, h2, if_pos, List.dropLast_cons_of_ne_nil hne,
          List.map_cons, List.flatten_cons]
      · simp only [UploadRun.persisted, h2, if_false, Bool.false_eq_true,
          List.map_cons, List.flatten_cons]
    have hRn : (UploadRun.mk ((bi, batch.map (fun doc => doc.pageContent),
        mkPoints e count batch) :: restR.1) restR.2).persisted =
        mkPoints e count batch ++ (UploadRun.mk restR.1 restR.2).persisted := by
      simp only [UploadRun.persisted, hR2, if_false, Bool.false_eq_true,
        List.map_cons, List.flatten_cons]
    rw [hL, hRn]
    obtain ⟨t, ht⟩ := ih
    exact ⟨t, by rw [List.append_assoc, ht]⟩

/-- With a never-failing upsert oracle, the loop upserts exactly one point
per document, whose id is the document's position offset by `count`. -/
theorem uploadLoop_noFail_points (e : List Char → EmbeddingVector) :
    ∀ (bi count : Nat) (docs : List DocChunk),
      ((uploadLoop e (fun _ => false) bi count docs).1.map (fun b => b.2.2)).flatten =
        (List.enumFrom count docs).map (pointOf e) := by
  refine uploadLoop.induct e (fun _ => false)
    (fun bi count docs =>
      ((uploadLoop e (fun _ => false) bi count docs).1.map (fun b => b.2.2)).flatten =
        (List.enumFrom count docs).map (pointOf e)) ?_ ?_ ?_
  · intro bi count
    rw [uploadLoop]
    simp
  · intro bi count d ds hf
    simp at hf
  · intro bi count d ds batch hf ih
    rw [uploadLoop, if_neg hf]
    simp only [List.map_cons, List.flatten_cons]
    rw [ih]
    conv_rhs => rw [← List.take_append_drop BATCH_SIZE (d :: ds)]
    rw [List.enumFrom_append, List.map_append]
    rfl

/-- Every point passed to an upsert call carries exactly the vector the
embedding oracle returned for its own payload text: vectors pass through
unchecked and unchanged. -/
theorem uploadLoop_vector_passthrough (e : List Char → EmbeddingVector) (f : Nat → Bool) :
    ∀ (bi count : Nat) (docs : List DocChunk),
      ∀ b ∈ (uploadLoop e f bi count docs).1, ∀ p ∈ b.2.2, p.vector = e p.payload.text := by
  refine uploadLoop.induct e f
    (fun bi count docs =>
      ∀ b ∈ (uploadLoop e f bi count docs).1, ∀ p ∈ b.2.2, p.vector = e p.payload.text) ?_ ?_ ?_
  · intro bi count b hb
    rw [uploadLoop] at hb
    simp at hb
  · intro bi count d ds hf b hb p hp
    rw [uploadLoop, if_pos hf] at hb
    simp only [List.mem_singleton] at hb
    subst hb
    simp only [mkPoints, List.mem_map] at hp
    obtain ⟨di, _, rfl⟩ := hp
    rfl
  · intro bi count d ds batch hf ih b hb p hp
    rw [uploadLoop, if_neg hf] at hb
    rcases List.mem_cons.mp hb with rfl | hb
    · simp only [mkPoints, List.mem_map] at hp
      obtain ⟨di, _, rfl⟩ := hp
      rfl
    · exact ih b hb p hp

/-! ### Claims about the coordinator -/

/-- C3 counterexample: it is not the case that a failing batch upsert is
retried and makes the run exit non-zero. At the concrete run below (one
document, an upsert oracle that always throws) the failing batch is
attempted exactly once and the process exit code is 0. -/
theorem upload_failure_claim_false :
    ¬ ∀ (collectionExists : Bool) (cfg : ChunkerConfig)
        (e : List Char → EmbeddingVector) (f : Nat → Bool) (tree : FsTree)
        (c0 : List Point),
        (uploadToQdrant false e f (allDocumentsOf cfg tree)).aborted = true →
          (∃ b, 2 ≤ (uploadToQdrant false e f (allDocumentsOf cfg tree)).upsertAttempts b) ∧
          (syncRepository true false collectionExists cfg e f tree c0).exitCode ≠ 0 := by
  intro h
  have hinc : shouldIncludeFile "a.js" = true := by decide
  have hpath : pathToString ["a.js"] = "a.js" := rfl
  have hsplit : splitText ⟨4, 2⟩ ['a', 'b'] = [['a', 'b']] := by
    rw [splitText]
    norm_num [ChunkerConfig.step]
  have hdocs : allDocumentsOf ⟨4, 2⟩ (FsTree.dir "r" [FsTree.file "a.js" ['a', 'b']]) =
      [DocChunk.mk ['a', 'b'] ⟨"a.js", 0, 1⟩] := by
    simp [allDocumentsOf, documentsOf, getFiles, entryFilesList, entryFiles, hinc,
      processFile, hpath, hsplit]
  have habort : (uploadToQdrant false (fun _ => ([0] : List Int)) (fun _ => true)
      (allDocumentsOf ⟨4, 2⟩ (FsTree.dir "r" [FsTree.file "a.js" ['a', 'b']]))).aborted =
      true := by
    rw [hdocs]
    simp only [uploadToQdrant, Bool.false_eq_true, if_false]
    rw [uploadLoop]
    simp
  obtain ⟨-, hexit⟩ := h false ⟨4, 2⟩ (fun _ => ([0] : List Int)) (fun _ => true)
    (FsTree.dir "r" [FsTree.file "a.js" ['a', 'b']]) [] habort
  exact hexit (by simp [syncRepository])

/-- C3 (amended): a failed batch upsert is attempted at most once (no retry,
no backoff); the error is caught and logged inside `uploadToQdrant`, the run
falls through to the success path and terminates with exit code 0; and the
batches upserted before the failure remain in the collection — the persisted
points are a prefix of the never-failing run's points (no rollback). -/
theorem upload_failure_swallowed (collectionExists : Bool) (cfg : ChunkerConfig)
    (e : List Char → EmbeddingVector) (f : Nat → Bool) (tree : FsTree)
    (c0 : List Point) :
    (syncRepository true false collectionExists cfg e f tree c0).exitCode = 0 ∧
    (∀ b, (uploadToQdrant false e f (allDocumentsOf cfg tree)).upsertAttempts b ≤ 1) ∧
    (uploadToQdrant false e f (allDocumentsOf cfg tree)).persisted <+:
      (uploadToQdrant false e (fun _ => false) (allDocumentsOf cfg tree)).persisted := by
  refine ⟨by simp [syncRepository], fun b => ?_, ?_⟩
  · simpa [uploadToQdrant, UploadRun.upsertAttempts] using
      uploadLoop_attempts_le e f 0 0 (allDocumentsOf cfg tree) b
  · simpa [uploadToQdrant] using
      uploadLoop_persisted_prefix e f 0 0 (allDocumentsOf cfg tree)

/-- C4 counterexample: the point id is not a function of
`(path, chunkIndex)` alone. The same chunk (path `"b.js"`, index 0) receives
id 0 when it is the only document of the run but id 1 when another document
precedes it. -/
theorem point_id_not_keyed_by_path_chunk :
    ¬ ∀ (e : List Char → EmbeddingVector) (docs1 docs2 : List DocChunk) (p1 p2 : Point),
        p1 ∈ (uploadToQdrant false e (fun _ => false) docs1).upsertedPoints →
        p2 ∈ (uploadToQdrant false e (fun _ => false) docs2).upsertedPoints →
        p1.payload.metadata.path = p2.payload.metadata.path →
        p1.payload.metadata.chunk = p2.payload.metadata.chunk →
        p1.id = p2.id := by
  intro h
  have h1 : uploadLoop (fun _ => ([0] : List Int)) (fun _ => false) 0 0
      [DocChunk.mk ['c', 'd'] ⟨"b.js", 0, 1⟩] =
      ([(0, [['c', 'd']], [Point.mk 0 [0] ⟨['c', 'd'], ⟨"b.js", 0, 1⟩⟩])], false) := by
    rw [uploadLoop]
    simp [BATCH_SIZE, mkPoints, pointOf]
    rw [uploadLoop]
    exact ⟨rfl, rfl⟩
  have h2 : uploadLoop (fun _ => ([0] : List Int)) (fun _ => false) 0 0
      [DocChunk.mk ['a', 'b'] ⟨"a.js", 0, 1⟩, DocChunk.mk ['c', 'd'] ⟨"b.js", 0, 1⟩] =
      ([(0, [['a', 'b'], ['c', 'd']],
         [Point.mk 0 [0] ⟨['a', 'b'], ⟨"a.js", 0, 1⟩⟩,
          Point.mk 1 [0] ⟨['c', 'd'], ⟨"b.js", 0, 1⟩⟩])], false) := by
    rw [uploadLoop]
    simp [BATCH_SIZE, mkPoints, pointOf]
    rw [uploadLoop]
    exact ⟨rfl, rfl⟩
  have := h (fun _ => ([0] : List Int))
    [DocChunk.mk ['c', 'd'] ⟨"b.js", 0, 1⟩]
    [DocChunk.mk ['a', 'b'] ⟨"a.js", 0, 1⟩, DocChunk.mk ['c', 'd'] ⟨"b.js", 0, 1⟩]
    (Point.mk 0 [0] ⟨['c', 'd'], ⟨"b.js", 0, 1⟩⟩)
    (Point.mk 1 [0] ⟨['c', 'd'], ⟨"b.js", 0, 1⟩⟩)
    (by
      simp only [uploadToQdrant, Bool.false_eq_true, if_false, UploadRun.upsertedPoints]
      rw [h1]
      decide)
    (by
      simp only [uploadToQdrant, Bool.false_eq_true, if_false, UploadRun.upsertedPoints]
      rw [h2]
      decide)
    rfl rfl
  simp at this

/-- C4 (amended): the id assigned to a chunk's point is the chunk's global
ordinal position in the run's concatenated document list (`count + idx`):
deterministic for a fixed document list, but dependent on every document in
the run, not a function of `(path, chunkIndex)` alone. -/
theorem upload_point_ids_positional (e : List Char → EmbeddingVector)
    (docs : List DocChunk) :
    (uploadToQdrant false e (fun _ => false) docs).upsertedPoints =
      docs.enum.map (pointOf e) := by
  simp only [uploadToQdrant, Bool.false_eq_true, if_false, UploadRun.upsertedPoints]
  rw [List.enum_eq_enumFrom]
  exact uploadLoop_noFail_points e 0 0 docs

/-- C5 counterexample: in dry-run mode the read-only collection existence
check is not performed either — `resetCollection` returns before
`getCollections`, so the dry-run call trace is empty. -/
theorem dry_run_skips_existence_check :
    ¬ ∀ (collectionExists : Bool) (cfg : ChunkerConfig)
        (e : List Char → EmbeddingVector) (f : Nat → Bool) (tree : FsTree)
        (c0 : List Point),
        (∀ c ∈ (syncRepository true true collectionExists cfg e f tree c0).calls,
          c = RemoteCall.getCollections) ∧
        RemoteCall.getCollections ∈
          (syncRepository true true collectionExists cfg e f tree c0).calls := by
  intro h
  obtain ⟨-, hmem⟩ := h true ⟨4, 2⟩ (fun _ => ([0] : List Int)) (fun _ => false)
    (FsTree.dir "r" []) []
  have hcalls : (syncRepository true true true ⟨4, 2⟩ (fun _ => ([0] : List Int))
      (fun _ => false) (FsTree.dir "r" []) []).calls = [] := by
    simp [syncRepository, resetCollectionCalls, uploadToQdrant, UploadRun.remoteCalls]
  rw [hcalls] at hmem
  simp at hmem

/-- C5 (amended): a dry run issues no remote calls at all — neither the
mutating calls (collection delete/create, embedding requests, upserts) nor
the read-only existence check, which is only logged — and leaves the
collection untouched. -/
theorem dry_run_no_remote_calls (collectionExists : Bool) (cfg : ChunkerConfig)
    (e : List Char → EmbeddingVector) (f : Nat → Bool) (tree : FsTree)
    (c0 : List Point) :
    (syncRepository true true collectionExists cfg e f tree c0).calls = [] ∧
    (syncRepository true true collectionExists cfg e f tree c0).collection = c0 := by
  constructor
  · simp [syncRepository, resetCollectionCalls, uploadToQdrant, UploadRun.remoteCalls]
  · simp [syncRepository, uploadToQdrant, UploadRun.persisted]

/-- C6 counterexample: a batch whose embedding vector has the wrong
dimension is upserted anyway — the script performs no dimension check and
raises no `ConsistencyError`. At the concrete input below the provider
returns a vector of length 1 and its point still reaches the upsert call. -/
theorem dimension_mismatch_not_rejected :
    ¬ ∀ (e : List Char → EmbeddingVector) (f : Nat → Bool) (docs : List DocChunk),
        (∃ d ∈ docs, (e d.pageContent).length ≠ VECTOR_DIM) →
        ∀ b ∈ (uploadToQdrant false e f docs).batches,
          ∀ p ∈ b.2.2, p.vector.length = VECTOR_DIM := by
  intro h
  have h1 : uploadLoop (fun _ => ([0] : List Int)) (fun _ => false) 0 0
      [DocChunk.mk ['a', 'b'] ⟨"a.js", 0, 1⟩] =
      ([(0, [['a', 'b']], [Point.mk 0 [0] ⟨['a', 'b'], ⟨"a.js", 0, 1⟩⟩])], false) := by
    rw [uploadLoop]
    simp [BATCH_SIZE, mkPoints, pointOf]
    rw [uploadLoop]
    exact ⟨rfl, rfl⟩
  have := h (fun _ => ([0] : List Int)) (fun _ => false)
    [DocChunk.mk ['a', 'b'] ⟨"a.js", 0, 1⟩]
    ⟨DocChunk.mk ['a', 'b'] ⟨"a.js", 0, 1⟩, by decide, by decide⟩
    (0, [['a', 'b']], [Point.mk 0 [0] ⟨['a', 'b'], ⟨"a.js", 0, 1⟩⟩])
    (by
      simp only [uploadToQdrant, Bool.false_eq_true, if_false]
      rw [h1]
      decide)
    (Point.mk 0 [0] ⟨['a', 'b'], ⟨"a.js", 0, 1⟩⟩)
    (by decide)
  simp [VECTOR_DIM] at this

/-- C6 (amended): no dimension check is performed: every point passed to an
upsert call carries the provider's vector for its own text verbatim,
whatever its length, and (absent upsert failures) the run never aborts. -/
theorem upload_no_dimension_check (e : List Char → EmbeddingVector) (f : Nat → Bool)
    (docs : List DocChunk) :
    (∀ b ∈ (uploadToQdrant false e f docs).batches,
      ∀ p ∈ b.2.2, p.vector = e p.payload.text) ∧
    (uploadToQdrant false e (fun _ => false) docs).aborted = false := by
  constructor
  · intro b hb p hp
    refine uploadLoop_vector_passthrough e f 0 0 docs b ?_ p hp
    simpa [uploadToQdrant] using hb
  · simpa [uploadToQdrant] using uploadLoop_noFail_not_aborted e 0 0 docs

/-- Witness for C6 (amended) at a concrete run: one document embedded to the
length-1 vector `[0]`, whose point carries exactly that vector, with no
abort. -/
theorem upload_no_dimension_check_witness :
    (0, [['a', 'b']], [Point.mk 0 [0] ⟨['a', 'b'], ⟨"a.js", 0, 1⟩⟩]) ∈
      (uploadToQdrant false (fun _ => ([0] : List Int)) (fun _ => false)
        [DocChunk.mk ['a', 'b'] ⟨"a.js", 0, 1⟩]).batches ∧
    (Point.mk 0 [0] ⟨['a', 'b'], ⟨"a.js", 0, 1⟩⟩).vector =
      (fun _ => ([0] : List Int))
        (Point.mk 0 [0] ⟨['a', 'b'], ⟨"a.js", 0, 1⟩⟩).payload.text ∧
    (uploadToQdrant false (fun _ => ([0] : List Int)) (fun _ => false)
      [DocChunk.mk ['a', 'b'] ⟨"a.js", 0, 1⟩]).aborted = false := by
  have h1 : uploadLoop (fun _ => ([0] : List Int)) (fun _ => false) 0 0
      [DocChunk.mk ['a', 'b'] ⟨"a.js", 0, 1⟩] =
      ([(0, [['a', 'b']], [Point.mk 0 [0] ⟨['a', 'b'], ⟨"a.js", 0, 1⟩⟩])], false) := by
    rw [uploadLoop]
    simp [BATCH_SIZE, mkPoints, pointOf]
    rw [uploadLoop]
    exact ⟨rfl, rfl⟩
  have hb : (0, [['a', 'b']], [Point.mk 0 [0] ⟨['a', 'b'], ⟨"a.js", 0, 1⟩⟩]) ∈
      (uploadToQdrant false (fun _ => ([0] : List Int)) (fun _ => false)
        [DocChunk.mk ['a', 'b'] ⟨"a.js", 0, 1⟩]).batches := by
    simp only [uploadToQdrant, Bool.false_eq_true, if_false]
    rw [h1]
    decide
  refine ⟨hb, ?_, ?_⟩
  · exact (upload_no_dimension_check (fun _ => ([0] : List Int)) (fun _ => false)
      [DocChunk.mk ['a', 'b'] ⟨"a.js", 0, 1⟩]).1 _ hb _ (by decide)
  · exact (upload_no_dimension_check (fun _ => ([0] : List Int)) (fun _ => false)
      [DocChunk.mk ['a', 'b'] ⟨"a.js", 0, 1⟩]).2

/-- C9: running the full sync twice on an unchanged tree under the
full-rebuild policy yields a collection with the same number of points and
pairwise equal payloads (in fact the collections are pointwise equal),
regardless of the prior collection contents or whether the collection
existed before either run. -/
theorem sync_rebuild_idempotent (ce1 ce2 : Bool) (cfg : ChunkerConfig)
    (e : List Char → EmbeddingVector) (tree : FsTree) (c0 : List Point) :
    (syncRepository true false ce2 cfg e (fun _ => false) tree
        (syncRepository true false ce1 cfg e (fun _ => false) tree c0).collection).collection.length =
      (syncRepository true false ce1 cfg e (fun _ => false) tree c0).collection.length ∧
    (syncRepository true false ce2 cfg e (fun _ => false) tree
        (syncRepository true false ce1 cfg e (fun _ => false) tree c0).collection).collection.map
          (fun p => p.payload) =
      (syncRepository true false ce1 cfg e (fun _ => false) tree c0).collection.map
        (fun p => p.payload) := by
  constructor
  · simp [syncRepository]
  · simp [syncRepository]

end SyncQdrant
